import Mathlib

/-!
Verification of the ulauncher Docker-workspace extension (`src/main.py`).

The development shallowly embeds the program:

* the filesystem under the user's home directory is a rose tree `FSDir`
  (directory base name, whether `os.scandir` on it succeeds, child
  directories); files are irrelevant to the program (only the `dirs`
  component of each `os.walk` triple is consumed);
* `os.walk` (top-down, `onerror=None`, i.e. a subtree whose scandir fails
  is silently skipped and traversal continues) combined with the in-place
  pruning `dirs[:] = [d for d in dirs if not d.startswith('.')]` is the
  pair `pyWalk` / `pyWalkChildren`, producing the list of
  `(root, dirs)` triples in traversal order;
* the matching loop of `find_matching_dirs` with its early `return` at
  5 matches is `scanNames` / `walkLoop`;
* `pathlib` paths are `PyPath` (absolute flag plus components), with
  Python's `/` join operator as `pyJoin` and `str()` as `PyPath.str`;
* Python's `str.replace` (all occurrences, leftmost first) is
  `pyReplace`; `str.lower` is `lowerStr` (modelled on the ASCII range);
  the substring test `q in s` is `strContains`;
* the two event listeners are `keywordOnEvent` and `itemEnterOnEvent`,
  with the host environment (preferences, home path, filesystem state,
  and an OS-level `mkdir` failure oracle) passed explicitly.
-/

/-- Python `str.lower`, modelled on the ASCII range (`Char.toLower`
lowercases exactly the ASCII uppercase letters). -/
def lowerStr (s : String) : String :=
  String.mk (s.data.map Char.toLower)

/-- Python's substring operator `q in s`: some contiguous slice of `s`
of the length of `q` equals `q`. -/
def strContains (s q : String) : Bool :=
  (List.range (s.data.length + 1)).any
    (fun i => ((s.data.drop i).take q.data.length) == q.data)

/-- A directory in the modelled filesystem: base name, whether
`os.scandir` on it succeeds (`readable = false` models a permission /
I/O error when the walk tries to enter it), and its child directories. -/
inductive FSDir where
  | mk : String → Bool → List FSDir → FSDir
deriving Repr

def FSDir.name : FSDir → String
  | .mk n _ _ => n

def FSDir.readable : FSDir → Bool
  | .mk _ ok _ => ok

def FSDir.children : FSDir → List FSDir
  | .mk _ _ cs => cs

/-- A path is a list of components; walk paths are rooted at the home
path, `str()` of such a path prepends `/` and joins with `/`. -/
abbrev FPath := List String

/-- `str()` of an absolute component path. -/
def pathToString (p : FPath) : String :=
  "/" ++ String.intercalate "/" p

/-- Python `s.startswith(pre)`: the characters of `pre` start those of
`s`. -/
def pyStartsWith (s pre : String) : Bool :=
  pre.data.isPrefixOf s.data

/-- Hidden-name test of the source: `d.startswith('.')`. -/
def isHidden (n : String) : Bool :=
  pyStartsWith n "."

mutual
/-- `os.walk(path)` (top-down, `onerror=None`) fused with the pruning
`dirs[:] = [d for d in dirs if not d.startswith('.')]` that
`find_matching_dirs` performs on every yielded triple: the list of
`(root, dirs)` pairs in traversal order.  A directory whose scandir
fails (`readable = false`) yields nothing — `os.walk` with the default
`onerror=None` skips the subtree and continues with its siblings. -/
def pyWalk (path : FPath) : FSDir → List (FPath × List String)
  | .mk _ ok children =>
    if ok then
      (path, (children.filter (fun c => !isHidden (FSDir.name c))).map FSDir.name)
        :: pyWalkChildren path children
    else []

/-- Depth-first descent into the (non-pruned) children, in order. -/
def pyWalkChildren (path : FPath) : List FSDir → List (FPath × List String)
  | [] => []
  | c :: cs =>
    (if isHidden (FSDir.name c) then []
     else pyWalk (path ++ [FSDir.name c]) c)
      ++ pyWalkChildren path cs
end

/-- The inner `for dir_name in dirs` loop of `find_matching_dirs`: for
each name whose lowercase form contains the (already lowercased) query,
append `root_path / dir_name` to the accumulator; the moment the
accumulator reaches `limit` (the check sits right after the append),
return it, skipping the remaining names. -/
def scanNames (q : String) (limit : Nat) (path : FPath) :
    List String → List FPath → List FPath
  | [], acc => acc
  | n :: ns, acc =>
    if strContains (lowerStr n) q then
      if limit ≤ (acc ++ [path ++ [n]]).length then acc ++ [path ++ [n]]
      else scanNames q limit path ns (acc ++ [path ++ [n]])
    else scanNames q limit path ns acc

/-- The outer `for root, dirs, _ in os.walk(...)` loop: consume the
walk triples in order, scanning each one's names; the early `return`
inside the inner loop stops the whole traversal. -/
def walkLoop (q : String) (limit : Nat) :
    List (FPath × List String) → List FPath → List FPath
  | [], acc => acc
  | e :: rest, acc =>
    if limit ≤ (scanNames q limit e.1 e.2 acc).length then
      scanNames q limit e.1 e.2 acc
    else walkLoop q limit rest (scanNames q limit e.1 e.2 acc)

/-- `find_matching_dirs(query)` of `src/main.py`, over the modelled
filesystem: home path `homePath`, home tree `home`.  The query is
lowercased once, then the pruned walk is scanned with limit 5. -/
def find_matching_dirs (homePath : FPath) (home : FSDir) (query : String) :
    List FPath :=
  walkLoop (lowerStr query) 5 (pyWalk homePath home) []

/-- The names of a triple that match the query (the `if query in
dir_name.lower()` filter), in order. -/
def matchNames (q : String) (names : List String) : List String :=
  names.filter (fun n => strContains (lowerStr n) q)

/-- The match paths contributed by one walk triple, in order. -/
def entryMatches (q : String) (e : FPath × List String) : List FPath :=
  (matchNames q e.2).map (fun n => e.1 ++ [n])

/-- All match paths of a walk, in traversal order, without the cap. -/
def allMatches (q : String) (entries : List (FPath × List String)) :
    List FPath :=
  (entries.map (entryMatches q)).flatten

/-- All non-hidden directories discovered by the pruned walk, in
traversal (discovery) order. -/
def discoveredDirs (homePath : FPath) (home : FSDir) : List FPath :=
  ((pyWalk homePath home).map
    (fun e => e.2.map (fun n => e.1 ++ [n]))).flatten

mutual
/-- There is a chain of directories in the tree along the given
component path (the path denotes an existing-at-scan-time directory). -/
def hasDirPath : FSDir → List String → Bool
  | _, [] => true
  | .mk _ _ children, n :: rest => hasDirIn children n rest
def hasDirIn : List FSDir → String → List String → Bool
  | [], _, _ => false
  | c :: cs, n, rest =>
    (FSDir.name c == n && hasDirPath c rest) || hasDirIn cs n rest
end

mutual
/-- Filesystem well-formedness: at every node the sibling names are
pairwise distinct (true of any real directory tree). -/
def wfFS : FSDir → Bool
  | .mk _ _ children => (children.map FSDir.name).Nodup && wfFSList children
def wfFSList : List FSDir → Bool
  | [] => true
  | c :: cs => wfFS c && wfFSList cs
end

/-- A `pathlib.PurePosixPath` value: whether the path is absolute plus
its components (`parts` without the root).  `Path(s)` parsing drops
empty components and `"."` — exactly what `pathlib` normalizes away. -/
structure PyPath where
  absolute : Bool
  parts : List String
deriving Repr, DecidableEq

/-- Python `s.split(sep)` for a single separator character, on
character lists: splitting never yields an empty list of pieces. -/
def splitCharsAux (sep : Char) : List Char → List Char → List (List Char)
  | [], cur => [cur.reverse]
  | c :: cs, cur =>
    if c = sep then cur.reverse :: splitCharsAux sep cs []
    else splitCharsAux sep cs (c :: cur)

/-- Python `s.split('/')` as a list of strings. -/
def pySplitSlash (s : String) : List String :=
  (splitCharsAux '/' s.data []).map String.mk

/-- `pathlib.Path(s)`. -/
def PyPath.parse (s : String) : PyPath :=
  { absolute := pyStartsWith s "/"
    parts := (pySplitSlash s).filter (fun c => !(c == "" || c == ".")) }

/-- `str()` of a `pathlib` path (`'.'` for the empty relative path). -/
def PyPath.str (p : PyPath) : String :=
  if p.absolute then "/" ++ String.intercalate "/" p.parts
  else if p.parts = [] then "."
  else String.intercalate "/" p.parts

/-- `pathlib`'s `/` operator: if the right operand is absolute it
replaces the left operand entirely, otherwise the components are
concatenated. -/
def pyJoin (a b : PyPath) : PyPath :=
  if b.absolute then b else { absolute := a.absolute, parts := a.parts ++ b.parts }

/-- One step list of Python `str.replace` (all occurrences, leftmost
first, non-overlapping), with explicit fuel; each step consumes at
least one character of the remaining input, so fuel equal to the input
length suffices.  The `!old.isEmpty` guard keeps the function total;
the source only ever calls replace with the non-empty token
`$WORKSPACE_BASE`. -/
def pyReplaceAux (old new : List Char) : Nat → List Char → List Char
  | 0, s => s
  | _ + 1, [] => []
  | fuel + 1, c :: cs =>
    if old.isPrefixOf (c :: cs) && !old.isEmpty then
      new ++ pyReplaceAux old new fuel ((c :: cs).drop old.length)
    else c :: pyReplaceAux old new fuel cs

/-- Python `s.replace(old, new)` for non-empty `old`. -/
def pyReplace (s old new : String) : String :=
  String.mk (pyReplaceAux old.data new.data s.data.length s.data)

/-- The opaque action payload `{action, path}` carried by a selected
result item. -/
structure EnterData where
  action : String
  path : String
deriving Repr, DecidableEq

/-- What an item's `on_enter` does, as far as the model observes. -/
inductive ItemAction where
  | hideWindow : ItemAction
  | custom : EnterData → ItemAction
deriving Repr, DecidableEq

/-- An `ExtensionResultItem`: display label, description, action. -/
structure ResultItem where
  name : String
  description : String
  onEnter : ItemAction
deriving Repr, DecidableEq

/-- `KeywordQueryEventListener.on_event`: the argument may be absent
(`event.get_argument() or ""`); an empty query yields the single
"Enter directory path" prompt; otherwise the synthetic create item is
followed by one "use" item per matched directory, in match order. -/
def keywordOnEvent (homePath : FPath) (home : FSDir)
    (queryArg : Option String) : List ResultItem :=
  let query := queryArg.getD ""
  if query = "" then
    [{ name := "Enter directory path"
       description := "Start typing to search or create a directory"
       onEnter := .hideWindow }]
  else
    { name := "Create and use: " ++ query
      description := "Create this directory and use it as workspace"
      onEnter := .custom { action := "create", path := query } }
      :: (find_matching_dirs homePath home query).map (fun p =>
        { name := pathToString p
          description := "Use this directory as workspace"
          onEnter := .custom { action := "use", path := pathToString p } })

/-- `Path.mkdir(parents=True, exist_ok=True)` on a dirs-only
filesystem state (the set of existing absolute directory paths, as
component lists): every missing ancestor of the target, and the target
itself, is created; already-existing directories are left alone
(`exist_ok=True` makes an existing target a success, not an error). -/
def mkdirParents (dirs : List (List String)) (target : List String) :
    List (List String) :=
  dirs ++ ((List.range (target.length + 1)).map (fun k => target.take k)).filter
    (fun p => !dirs.contains p)

/-- The host-supplied environment of `ItemEnterEventListener.on_event`:
the home path, the `docker_command` preference, the current directory
set, and an oracle for an OS-level error raised by `mkdir` (permission
denied, a file in the way, ...). -/
structure EnterEnv where
  home : PyPath
  dockerCommand : String
  dirs : List (List String)
  mkdirFails : Bool
deriving Repr

/-- The observable outcome of `ItemEnterEventListener.on_event`: the
substituted `docker_cmd` string launched in the terminal (`none` when
the launch step is skipped; the actual `Popen` call wraps it as
`kitty -- bash -c '<docker_cmd>; read -p "Press Enter to close..."'`,
a fixed wrapper around exactly this string) and the directory set
afterwards.  The listener always returns `HideWindowAction`, so that
part carries no information. -/
structure EnterOutcome where
  launched : Option String
  dirs : List (List String)
deriving Repr, DecidableEq

/-- `ItemEnterEventListener.on_event`: parse the payload path; for
`action == 'create'` join it under home and `mkdir` it (on an OS error
the error is logged and the listener returns before the launch step);
then substitute the resolved path for every `$WORKSPACE_BASE` in the
`docker_command` preference and launch the result in a terminal. -/
def itemEnterOnEvent (env : EnterEnv) (data : EnterData) : EnterOutcome :=
  let wp := PyPath.parse data.path
  if data.action = "create" then
    if env.mkdirFails then
      { launched := none, dirs := env.dirs }
    else
      let wp' := pyJoin env.home wp
      { launched := some
          (pyReplace env.dockerCommand "$WORKSPACE_BASE" wp'.str)
        dirs := mkdirParents env.dirs wp'.parts }
  else
    { launched := some (pyReplace env.dockerCommand "$WORKSPACE_BASE" wp.str)
      dirs := env.dirs }

/-! ### Lemmas about the substring test -/

/-- `strContains s q` is exactly substring occurrence. -/
theorem strContains_iff (s q : String) :
    strContains s q = true ↔ ∃ l r, s.data = l ++ q.data ++ r := by
  unfold strContains
  rw [List.any_eq_true]
  constructor
  · rintro ⟨i, _, hi⟩
    rw [beq_iff_eq] at hi
    refine ⟨s.data.take i, s.data.drop (i + q.data.length), ?_⟩
    conv_lhs => rw [← List.take_append_drop i s.data]
    rw [List.append_assoc]
    congr 1
    conv_lhs => rw [← List.take_append_drop q.data.length (s.data.drop i)]
    rw [hi, List.drop_drop]
  · rintro ⟨l, r, hs⟩
    refine ⟨l.length, ?_, ?_⟩
    · rw [List.mem_range]
      have : s.data.length = l.length + q.data.length + r.length := by
        simp only [hs, List.length_append]
      omega
    · rw [beq_iff_eq, hs, List.append_assoc, List.drop_left, List.take_left]

/-- The empty query matches every string (Python: `"" in s` is `True`). -/
theorem strContains_empty (s : String) : strContains s "" = true := by
  rw [strContains_iff]
  exact ⟨[], s.data, rfl⟩

/-! ### The cap-5 loop computes a `take` of the uncapped match list -/

/-- The inner loop extends the accumulator by the matches of the scanned
names, truncated to the remaining capacity. -/
theorem scanNames_eq (q : String) (limit : Nat) (path : FPath) :
    ∀ (ns : List String) (acc : List FPath), acc.length < limit →
      scanNames q limit path ns acc =
        acc ++ ((matchNames q ns).map (fun n => path ++ [n])).take
          (limit - acc.length) := by
  intro ns
  induction ns with
  | nil => intro acc _; simp [scanNames, matchNames]
  | cons n ns ih =>
    intro acc h
    by_cases hm : strContains (lowerStr n) q = true
    · have hmn : matchNames q (n :: ns) = n :: matchNames q ns := by
        simp [matchNames, List.filter_cons, hm]
      have hk : limit - acc.length = (limit - (acc.length + 1)) + 1 := by omega
      rw [hmn, List.map_cons, hk, List.take_succ_cons]
      rw [scanNames, if_pos hm]
      by_cases hl : limit ≤ (acc ++ [path ++ [n]]).length
      · rw [if_pos hl]
        have : limit - (acc.length + 1) = 0 := by
          simp only [List.length_append, List.length_cons, List.length_nil] at hl
          omega
        simp [this]
      · rw [if_neg hl]
        have hlen : (acc ++ [path ++ [n]]).length = acc.length + 1 := by simp
        have h' : (acc ++ [path ++ [n]]).length < limit := by omega
        rw [ih _ h', hlen]
        simp
    · have hmn : matchNames q (n :: ns) = matchNames q ns := by
        simp [matchNames, List.filter_cons, hm]
      rw [hmn, scanNames, if_neg hm, ih _ h]

/-- The outer loop extends the accumulator by all matches of the walk,
truncated to the remaining capacity. -/
theorem walkLoop_eq (q : String) (limit : Nat) :
    ∀ (entries : List (FPath × List String)) (acc : List FPath),
      acc.length < limit →
      walkLoop q limit entries acc =
        acc ++ (allMatches q entries).take (limit - acc.length) := by
  intro entries
  induction entries with
  | nil => intro acc _; simp [walkLoop, allMatches]
  | cons e rest ih =>
    intro acc h
    have hscan := scanNames_eq q limit e.1 e.2 acc h
    have hall : allMatches q (e :: rest) =
        entryMatches q e ++ allMatches q rest := by
      simp [allMatches]
    have hem : entryMatches q e =
        (matchNames q e.2).map (fun n => e.1 ++ [n]) := rfl
    rw [walkLoop, hall, hscan, ← hem,
      List.take_append_eq_append_take]
    by_cases hl : limit ≤ (acc ++ (entryMatches q e).take (limit - acc.length)).length
    · rw [if_pos hl]
      have hlen : (acc ++ (entryMatches q e).take (limit - acc.length)).length =
          acc.length + min (limit - acc.length) (entryMatches q e).length := by
        simp
      have hge : limit - acc.length ≤ (entryMatches q e).length := by
        rw [hlen] at hl; omega
      have h0 : limit - acc.length - (entryMatches q e).length = 0 := by omega
      rw [h0]
      simp
    · rw [if_neg hl]
      have hlen : (acc ++ (entryMatches q e).take (limit - acc.length)).length =
          acc.length + min (limit - acc.length) (entryMatches q e).length := by
        simp
      have hlt : (acc ++ (entryMatches q e).take (limit - acc.length)).length < limit := by
        omega
      have hmin : min (limit - acc.length) (entryMatches q e).length =
          (entryMatches q e).length := by
        rw [hlen] at hl; omega
      have htk : (entryMatches q e).take (limit - acc.length) = entryMatches q e := by
        apply List.take_of_length_le
        omega
      rw [ih _ hlt, htk]
      have harith : limit - (acc ++ entryMatches q e).length =
          limit - acc.length - (entryMatches q e).length := by
        simp only [List.length_append]
        omega
      rw [List.append_assoc, harith]

/-- `find_matching_dirs` returns the first five of the walk's matches. -/
theorem find_matching_dirs_eq (homePath : FPath) (home : FSDir) (query : String) :
    find_matching_dirs homePath home query =
      (allMatches (lowerStr query) (pyWalk homePath home)).take 5 := by
  unfold find_matching_dirs
  rw [walkLoop_eq _ _ _ _ (by simp)]
  simp

/-- The result never exceeds five elements. -/
theorem find_matching_dirs_len_le (homePath : FPath) (home : FSDir)
    (query : String) : (find_matching_dirs homePath home query).length ≤ 5 := by
  rw [find_matching_dirs_eq]
  simp [List.length_take]

/-! ### Walk invariants -/

/-- A member child with a directory chain below it witnesses `hasDirIn`. -/
theorem hasDirIn_of_mem {l : List FSDir} {c : FSDir} (hc : c ∈ l)
    {rest : List String} (h : hasDirPath c rest = true) :
    hasDirIn l (FSDir.name c) rest = true := by
  induction l with
  | nil => cases hc
  | cons d ds ih =>
    rcases List.mem_cons.mp hc with h1 | h1
    · subst h1
      simp [hasDirIn, h]
    · simp [hasDirIn, ih h1]

mutual
/-- Every triple yielded by the pruned walk sits at `p ++ rel` with all
of `rel` non-hidden, and every name in its `dirs` list is non-hidden
and is an existing directory of the tree at `rel ++ [n]`. -/
theorem pyWalk_mem_spec (p : FPath) (t : FSDir) :
    ∀ e ∈ pyWalk p t,
      ∃ rel, e.1 = p ++ rel ∧ (∀ c ∈ rel, isHidden c = false) ∧
        ∀ n ∈ e.2, isHidden n = false ∧ hasDirPath t (rel ++ [n]) = true := by
  cases t with
  | mk nm ok children =>
    intro e he
    rw [pyWalk] at he
    by_cases hok : ok
    · rw [if_pos hok] at he
      rcases List.mem_cons.mp he with h1 | h1
      · subst h1
        refine ⟨[], by simp, by simp, ?_⟩
        intro n hn
        simp only at hn
        rcases List.mem_map.mp hn with ⟨c, hcmem, hcname⟩
        rcases List.mem_filter.mp hcmem with ⟨hcmem', hch⟩
        subst hcname
        refine ⟨by simpa using hch, ?_⟩
        show hasDirIn children (FSDir.name c) [] = true
        exact hasDirIn_of_mem hcmem' (by rw [hasDirPath])
      · rcases pyWalkChildren_mem_spec p children e h1 with
          ⟨c, hcmem, hch, rel, hpath, hrel, hnames⟩
        refine ⟨FSDir.name c :: rel, by simpa [List.append_assoc] using hpath, ?_, ?_⟩
        · intro x hx
          rcases List.mem_cons.mp hx with h2 | h2
          · subst h2; exact hch
          · exact hrel x h2
        · intro n hn
          refine ⟨(hnames n hn).1, ?_⟩
          show hasDirIn children (FSDir.name c) (rel ++ [n]) = true
          exact hasDirIn_of_mem hcmem (hnames n hn).2
    · rw [if_neg hok] at he
      cases he

/-- Every triple yielded below a children list comes from some
non-hidden member child. -/
theorem pyWalkChildren_mem_spec (p : FPath) (l : List FSDir) :
    ∀ e ∈ pyWalkChildren p l,
      ∃ c, c ∈ l ∧ isHidden (FSDir.name c) = false ∧
        ∃ rel, e.1 = (p ++ [FSDir.name c]) ++ rel ∧
          (∀ x ∈ rel, isHidden x = false) ∧
          ∀ n ∈ e.2, isHidden n = false ∧ hasDirPath c (rel ++ [n]) = true := by
  cases l with
  | nil => intro e he; rw [pyWalkChildren] at he; cases he
  | cons c cs =>
    intro e he
    rw [pyWalkChildren] at he
    rcases List.mem_append.mp he with h1 | h1
    · by_cases hh : isHidden (FSDir.name c)
      · rw [if_pos hh] at h1; cases h1
      · rw [if_neg hh] at h1
        rcases pyWalk_mem_spec (p ++ [FSDir.name c]) c e h1 with
          ⟨rel, hpath, hrel, hnames⟩
        exact ⟨c, List.mem_cons_self c cs, by simpa using hh,
          rel, hpath, hrel, hnames⟩
    · rcases pyWalkChildren_mem_spec p cs e h1 with
        ⟨c', hcmem, hrest⟩
      exact ⟨c', List.mem_cons_of_mem c hcmem, hrest⟩
end

mutual
/-- Under sibling-name well-formedness, the walk visits pairwise
distinct directory paths, and each yielded `dirs` list has pairwise
distinct names. -/
theorem pyWalk_nodup (p : FPath) (t : FSDir) (hw : wfFS t = true) :
    ((pyWalk p t).map Prod.fst).Nodup ∧ ∀ e ∈ pyWalk p t, e.2.Nodup := by
  cases t with
  | mk nm ok children =>
    have hw' : (children.map FSDir.name).Nodup ∧ wfFSList children = true := by
      rw [wfFS] at hw
      exact ⟨by simpa using (Bool.and_eq_true_iff.mp hw).1,
        (Bool.and_eq_true_iff.mp hw).2⟩
    rw [pyWalk]
    by_cases hok : ok
    · rw [if_pos hok]
      have hch := pyWalkChildren_nodup p children hw'.2 hw'.1
      constructor
      · rw [List.map_cons, List.nodup_cons]
        refine ⟨?_, hch.1⟩
        intro hp
        rcases List.mem_map.mp hp with ⟨e, hemem, hefst⟩
        rcases pyWalkChildren_mem_spec p children e hemem with
          ⟨c, _, _, rel, hpath, _, _⟩
        rw [hefst] at hpath
        have hlen := congrArg List.length hpath
        simp only [List.length_append, List.length_cons, List.length_nil] at hlen
        omega
      · intro e he
        rcases List.mem_cons.mp he with h1 | h1
        · subst h1
          exact ((List.filter_sublist children).map FSDir.name).nodup hw'.1
        · exact hch.2 e h1
    · rw [if_neg hok]
      simp
/-- The children version of `pyWalk_nodup`, under distinct sibling
names at the top level. -/
theorem pyWalkChildren_nodup (p : FPath) (l : List FSDir)
    (hw : wfFSList l = true) (hn : (l.map FSDir.name).Nodup) :
    ((pyWalkChildren p l).map Prod.fst).Nodup ∧
      ∀ e ∈ pyWalkChildren p l, e.2.Nodup := by
  cases l with
  | nil => rw [pyWalkChildren]; simp
  | cons c cs =>
    have hw' : wfFS c = true ∧ wfFSList cs = true := by
      rw [wfFSList] at hw
      exact Bool.and_eq_true_iff.mp hw
    have hn' : FSDir.name c ∉ cs.map FSDir.name ∧ (cs.map FSDir.name).Nodup := by
      rw [List.map_cons, List.nodup_cons] at hn
      exact hn
    have hcs := pyWalkChildren_nodup p cs hw'.2 hn'.2
    rw [pyWalkChildren]
    constructor
    · rw [List.map_append, List.nodup_append]
      refine ⟨?_, hcs.1, ?_⟩
      · by_cases hh : isHidden (FSDir.name c)
        · rw [if_pos hh]; simp
        · rw [if_neg hh]
          exact (pyWalk_nodup (p ++ [FSDir.name c]) c hw'.1).1
      · intro x hx hx'
        rcases List.mem_map.mp hx' with ⟨e', hemem', hefst'⟩
        rcases pyWalkChildren_mem_spec p cs e' hemem' with
          ⟨c', hc'mem, _, rel', hpath', _, _⟩
        have hxeq' : x = p ++ FSDir.name c' :: rel' := by
          rw [← hefst', hpath']
          simp
        by_cases hh : isHidden (FSDir.name c)
        · rw [if_pos hh] at hx; cases hx
        · rw [if_neg hh] at hx
          rcases List.mem_map.mp hx with ⟨e, hemem, hefst⟩
          rcases pyWalk_mem_spec (p ++ [FSDir.name c]) c e hemem with
            ⟨rel, hpath, _, _⟩
          have hxeq : x = p ++ FSDir.name c :: rel := by
            rw [← hefst, hpath]
            simp
          have : FSDir.name c :: rel = FSDir.name c' :: rel' :=
            List.append_cancel_left (hxeq ▸ hxeq')
          have hcc' : FSDir.name c = FSDir.name c' := by
            injection this
          exact hn'.1 (hcc' ▸ List.mem_map_of_mem FSDir.name hc'mem)
    · intro e he
      rcases List.mem_append.mp he with h1 | h1
      · by_cases hh : isHidden (FSDir.name c)
        · rw [if_pos hh] at h1; cases h1
        · rw [if_neg hh] at h1
          exact (pyWalk_nodup (p ++ [FSDir.name c]) c hw'.1).2 e h1
      · exact hcs.2 e h1
end

/-- Membership in the uncapped match list of a walk. -/
theorem mem_allMatches_iff {q : String} {entries : List (FPath × List String)}
    {x : FPath} :
    x ∈ allMatches q entries ↔
      ∃ e ∈ entries, ∃ n ∈ e.2,
        strContains (lowerStr n) q = true ∧ x = e.1 ++ [n] := by
  unfold allMatches entryMatches matchNames
  rw [List.mem_flatten]
  constructor
  · rintro ⟨chunk, hchunk, hx⟩
    rcases List.mem_map.mp hchunk with ⟨e, he, rfl⟩
    rcases List.mem_map.mp hx with ⟨n, hn, rfl⟩
    rcases List.mem_filter.mp hn with ⟨hn', hp⟩
    exact ⟨e, he, n, hn', hp, rfl⟩
  · rintro ⟨e, he, n, hn, hp, rfl⟩
    refine ⟨(e.2.filter (fun n => strContains (lowerStr n) q)).map
      (fun n => e.1 ++ [n]), ?_, ?_⟩
    · exact List.mem_map_of_mem _ he
    · exact List.mem_map_of_mem _ (List.mem_filter.mpr ⟨hn, hp⟩)

/-- Under well-formedness, the uncapped match list has no duplicates. -/
theorem allMatches_nodup (p : FPath) (t : FSDir) (hw : wfFS t = true)
    (q : String) : (allMatches q (pyWalk p t)).Nodup := by
  unfold allMatches
  rw [List.nodup_flatten]
  constructor
  · intro l hl
    rcases List.mem_map.mp hl with ⟨e, he, rfl⟩
    have h2 : e.2.Nodup := (pyWalk_nodup p t hw).2 e he
    have hmn : (matchNames q e.2).Nodup := (List.filter_sublist e.2).nodup h2
    apply List.Nodup.map ?_ hmn
    intro a b hab
    have hab' : e.1 ++ [a] = e.1 ++ [b] := hab
    have := List.append_cancel_left hab'
    injection this
  · have hfst : ((pyWalk p t).map Prod.fst).Nodup := (pyWalk_nodup p t hw).1
    have hpair : (pyWalk p t).Pairwise (fun a b => a.1 ≠ b.1) :=
      List.pairwise_map.mp hfst
    rw [List.pairwise_map]
    apply hpair.imp
    intro a b hne x hxa hxb
    rcases List.mem_map.mp hxa with ⟨n, _, hxa'⟩
    rcases List.mem_map.mp hxb with ⟨m, _, hxb'⟩
    have heq : a.1 ++ [n] = b.1 ++ [m] := by rw [hxa', hxb']
    exact hne (List.append_inj' heq rfl).1

/-- The result of `find_matching_dirs` has no duplicates (on any
filesystem whose sibling names are distinct, as real ones are). -/
theorem find_matching_dirs_nodup (homePath : FPath) (home : FSDir)
    (query : String) (hw : wfFS home = true) :
    (find_matching_dirs homePath home query).Nodup := by
  rw [find_matching_dirs_eq]
  exact (List.take_sublist 5 _).nodup (allMatches_nodup homePath home hw _)

/-- Every returned path decomposes as home plus a non-hidden relative
chain ending in a matching, existing directory name. -/
theorem find_mem_spec (homePath : FPath) (home : FSDir) (query : String) :
    ∀ x ∈ find_matching_dirs homePath home query,
      ∃ rel n, x = homePath ++ (rel ++ [n]) ∧
        hasDirPath home (rel ++ [n]) = true ∧
        (∀ c ∈ rel, isHidden c = false) ∧ isHidden n = false ∧
        strContains (lowerStr n) (lowerStr query) = true := by
  intro x hx
  rw [find_matching_dirs_eq] at hx
  have hx' : x ∈ allMatches (lowerStr query) (pyWalk homePath home) :=
    List.take_subset 5 _ hx
  rcases mem_allMatches_iff.mp hx' with ⟨e, he, n, hn, hp, rfl⟩
  rcases pyWalk_mem_spec homePath home e he with ⟨rel, hpath, hrel, hnames⟩
  exact ⟨rel, n, by rw [hpath, List.append_assoc], (hnames n hn).2,
    hrel, (hnames n hn).1, hp⟩

/-! ### Support lemmas for early termination, error recovery, and mkdir -/

/-- The uncapped match list distributes over walk concatenation. -/
theorem allMatches_append (q : String)
    (e₁ e₂ : List (FPath × List String)) :
    allMatches q (e₁ ++ e₂) = allMatches q e₁ ++ allMatches q e₂ := by
  simp [allMatches]

/-- Matching names distribute over name-list concatenation. -/
theorem matchNames_append (q : String) (ns₁ ns₂ : List String) :
    matchNames q (ns₁ ++ ns₂) = matchNames q ns₁ ++ matchNames q ns₂ := by
  simp [matchNames]

/-- The walk of concatenated sibling lists is the concatenation of the
walks. -/
theorem pyWalkChildren_append (p : FPath) (l₁ l₂ : List FSDir) :
    pyWalkChildren p (l₁ ++ l₂) =
      pyWalkChildren p l₁ ++ pyWalkChildren p l₂ := by
  induction l₁ with
  | nil => simp [pyWalkChildren]
  | cons c cs ih => rw [List.cons_append, pyWalkChildren, pyWalkChildren, ih,
      List.append_assoc]

/-- A query with no characters matches every string. -/
theorem strContains_of_nil (s q : String) (h : q.data = []) :
    strContains s q = true := by
  rw [strContains_iff]
  exact ⟨[], s.data, by simp [h]⟩

/-- The lowercased empty query has no characters. -/
theorem lowerStr_empty : (lowerStr "").data = [] := by
  simp [lowerStr]

/-- An empty query keeps every name. -/
theorem matchNames_empty_query (ns : List String) :
    matchNames (lowerStr "") ns = ns := by
  unfold matchNames
  rw [List.filter_eq_self]
  intro n _
  exact strContains_of_nil _ _ lowerStr_empty

/-- Every prefix of the target, the target itself included, is present
after `mkdir(parents=True, exist_ok=True)`. -/
theorem mkdirParents_mem (dirs : List (List String)) (t : List String)
    (k : Nat) (hk : k ≤ t.length) : t.take k ∈ mkdirParents dirs t := by
  unfold mkdirParents
  rw [List.mem_append]
  by_cases hin : t.take k ∈ dirs
  · exact Or.inl hin
  · right
    rw [List.mem_filter]
    refine ⟨List.mem_map_of_mem _ (List.mem_range.mpr (by omega)), ?_⟩
    simpa using hin

/-! ### Claim theorems -/

/-- Claim C1: for every query, `find_matching_dirs` returns at most 5 paths;
every returned path is an existing-at-scan-time directory strictly
below home (it is home plus a non-empty relative chain ending in the
matched base name) whose base name, lowercased, contains the lowercased
query as a substring; and the returned sequence has no duplicates (on
any filesystem with distinct sibling names, as every real one has). -/
theorem claim_C1_output_guarantee (homePath : FPath) (home : FSDir)
    (query : String) (hw : wfFS home = true) :
    (find_matching_dirs homePath home query).length ≤ 5 ∧
    (∀ x ∈ find_matching_dirs homePath home query,
      ∃ rel n, x = homePath ++ (rel ++ [n]) ∧
        hasDirPath home (rel ++ [n]) = true ∧
        ∃ l r, (lowerStr n).data = l ++ (lowerStr query).data ++ r) ∧
    (find_matching_dirs homePath home query).Nodup := by
  refine ⟨find_matching_dirs_len_le _ _ _, ?_,
    find_matching_dirs_nodup _ _ _ hw⟩
  intro x hx
  rcases find_mem_spec _ _ _ x hx with ⟨rel, n, hx', hdir, _, _, hmatch⟩
  exact ⟨rel, n, hx', hdir, (strContains_iff _ _).mp hmatch⟩

/-- Witness for C1 on a concrete home tree. -/
theorem claim_C1_witness :
    (find_matching_dirs ["home", "u"]
      (.mk "u" true
        [ .mk "projects" true [.mk "app1" true [], .mk "app2" true []],
          .mk ".hidden" true [.mk "app3" true []],
          .mk "work" true [.mk "App4" true []] ]) "app").length ≤ 5 ∧
    (∀ x ∈ find_matching_dirs ["home", "u"]
      (.mk "u" true
        [ .mk "projects" true [.mk "app1" true [], .mk "app2" true []],
          .mk ".hidden" true [.mk "app3" true []],
          .mk "work" true [.mk "App4" true []] ]) "app",
      ∃ rel n, x = ["home", "u"] ++ (rel ++ [n]) ∧
        hasDirPath
          (.mk "u" true
            [ .mk "projects" true [.mk "app1" true [], .mk "app2" true []],
              .mk ".hidden" true [.mk "app3" true []],
              .mk "work" true [.mk "App4" true []] ]) (rel ++ [n]) = true ∧
        ∃ l r, (lowerStr n).data = l ++ (lowerStr "app").data ++ r) ∧
    (find_matching_dirs ["home", "u"]
      (.mk "u" true
        [ .mk "projects" true [.mk "app1" true [], .mk "app2" true []],
          .mk ".hidden" true [.mk "app3" true []],
          .mk "work" true [.mk "App4" true []] ]) "app").Nodup :=
  claim_C1_output_guarantee ["home", "u"] _ "app" (by decide)

/-- Claim C2: no returned path, nor any directory on its relative chain below
home, has a hidden base name; moreover every directory the pruned walk
visits lies on an all-non-hidden chain, so nothing beneath a hidden
directory is ever visited. -/
theorem claim_C2_hidden_excluded_and_pruned (homePath : FPath)
    (home : FSDir) (query : String) :
    (∀ x ∈ find_matching_dirs homePath home query,
      ∃ comps, x = homePath ++ comps ∧ comps ≠ [] ∧
        ∀ c ∈ comps, isHidden c = false) ∧
    (∀ e ∈ pyWalk homePath home,
      ∃ rel, e.1 = homePath ++ rel ∧ ∀ c ∈ rel, isHidden c = false) := by
  constructor
  · intro x hx
    rcases find_mem_spec _ _ _ x hx with ⟨rel, n, hx', _, hrel, hn, _⟩
    refine ⟨rel ++ [n], hx', by simp, ?_⟩
    intro c hc
    rcases List.mem_append.mp hc with h | h
    · exact hrel c h
    · rw [List.mem_singleton.mp h]
      exact hn
  · intro e he
    rcases pyWalk_mem_spec _ _ e he with ⟨rel, hp, hrel, _⟩
    exact ⟨rel, hp, hrel⟩

/-- Witness for C2 on a concrete home tree containing a hidden branch. -/
theorem claim_C2_witness :
    (∀ x ∈ find_matching_dirs ["home", "u"]
      (.mk "u" true
        [ .mk ".hidden" true [.mk "app3" true []],
          .mk "work" true [.mk "App4" true []] ]) "app",
      ∃ comps, x = ["home", "u"] ++ comps ∧ comps ≠ [] ∧
        ∀ c ∈ comps, isHidden c = false) ∧
    (∀ e ∈ pyWalk ["home", "u"]
      (.mk "u" true
        [ .mk ".hidden" true [.mk "app3" true []],
          .mk "work" true [.mk "App4" true []] ]),
      ∃ rel, e.1 = ["home", "u"] ++ rel ∧ ∀ c ∈ rel, isHidden c = false) :=
  claim_C2_hidden_excluded_and_pruned ["home", "u"] _ "app"

/-- Claim C4: a traversal error is recovered where it occurs: a subtree whose
scan fails contributes nothing, siblings before and after it are
traversed exactly as if the failed subtree were absent, and a failure
at the root yields the empty (never-raising) result. -/
theorem claim_C4_traversal_error_recovery (p : FPath) (nm : String)
    (cs : List FSDir) (pre post : List FSDir) (homePath : FPath)
    (query : String) :
    pyWalk p (.mk nm false cs) = [] ∧
    pyWalkChildren p (pre ++ FSDir.mk nm false cs :: post) =
      pyWalkChildren p (pre ++ post) ∧
    find_matching_dirs homePath (.mk nm false cs) query = [] := by
  have ha : pyWalk p (FSDir.mk nm false cs) = [] := by
    rw [pyWalk]
    simp
  refine ⟨ha, ?_, ?_⟩
  · rw [pyWalkChildren_append, pyWalkChildren_append, pyWalkChildren]
    have hmid : (if isHidden (FSDir.name (FSDir.mk nm false cs)) then []
        else pyWalk (p ++ [FSDir.name (FSDir.mk nm false cs)])
          (FSDir.mk nm false cs)) = ([] : List (FPath × List String)) := by
      by_cases hh : isHidden (FSDir.name (FSDir.mk nm false cs))
      · rw [if_pos hh]
      · rw [if_neg hh, pyWalk]
        simp
    rw [hmid, List.nil_append]
  · rw [find_matching_dirs]
    have hroot : pyWalk homePath (FSDir.mk nm false cs) = [] := by
      rw [pyWalk]
      simp
    rw [hroot, walkLoop]

/-- Claim C5: the empty query matches every directory name, so the result is
the first five non-hidden directories in discovery order. -/
theorem claim_C5_empty_query (homePath : FPath) (home : FSDir) :
    find_matching_dirs homePath home "" =
      (discoveredDirs homePath home).take 5 := by
  rw [find_matching_dirs_eq]
  congr 1
  unfold allMatches discoveredDirs
  congr 1
  apply List.map_congr_left
  intro e _
  rw [entryMatches, matchNames_empty_query]

/-- Claim C9: the matcher keeps no state between calls (its accumulator is
local), so it is a pure function of the filesystem snapshot and the
query: a second call against an unchanged snapshot returns the
identical sequence. -/
theorem claim_C9_idempotent (homePath : FPath) (home snapshot2 : FSDir)
    (query : String) (hunchanged : snapshot2 = home) :
    find_matching_dirs homePath snapshot2 query =
      find_matching_dirs homePath home query := by
  rw [hunchanged]

/-- Witness for C9 on a concrete tree. -/
theorem claim_C9_witness :
    find_matching_dirs ["home", "u"]
        (.mk "u" true [.mk "proj" true []]) "pr" =
      find_matching_dirs ["home", "u"]
        (.mk "u" true [.mk "proj" true []]) "pr" :=
  claim_C9_idempotent ["home", "u"] _ _ "pr" rfl

/-- Claim C3: when the accumulated match count reaches the limit 5,
the result has length exactly 5, it is the 5-element prefix of the
uncapped match list (so nothing discovered later can influence it),
any walk entries past the point where five matches have accumulated
are ignored, and so are remaining sibling names in the directory
being scanned when the fifth match lands. -/
theorem claim_C3_early_termination (homePath : FPath) (home : FSDir)
    (query : String) (entries₁ entries₂ : List (FPath × List String))
    (path : FPath) (ns₁ ns₂ : List String) (acc : List FPath)
    (h5 : 5 ≤ (allMatches (lowerStr query) (pyWalk homePath home)).length)
    (he : 5 ≤ (allMatches (lowerStr query) entries₁).length)
    (ha : acc.length < 5)
    (hs : 5 ≤ acc.length + (matchNames (lowerStr query) ns₁).length) :
    (find_matching_dirs homePath home query).length = 5 ∧
    find_matching_dirs homePath home query =
      (allMatches (lowerStr query) (pyWalk homePath home)).take 5 ∧
    walkLoop (lowerStr query) 5 (entries₁ ++ entries₂) [] =
      walkLoop (lowerStr query) 5 entries₁ [] ∧
    scanNames (lowerStr query) 5 path (ns₁ ++ ns₂) acc =
      scanNames (lowerStr query) 5 path ns₁ acc := by
  refine ⟨?_, find_matching_dirs_eq _ _ _, ?_, ?_⟩
  · rw [find_matching_dirs_eq, List.length_take]
    omega
  · rw [walkLoop_eq _ 5 (entries₁ ++ entries₂) [] (by simp),
      walkLoop_eq _ 5 entries₁ [] (by simp)]
    simp only [List.nil_append, List.length_nil, Nat.sub_zero]
    rw [allMatches_append, List.take_append_of_le_length he]
  · rw [scanNames_eq _ 5 _ _ _ ha, scanNames_eq _ 5 _ _ _ ha]
    congr 1
    rw [matchNames_append, List.map_append, List.take_append_of_le_length]
    rw [List.length_map]
    omega

/-- Witness for C3: a directory with six matching children; the sixth
is cut off, and appended walk entries or sibling names change nothing. -/
theorem claim_C3_witness :
    (find_matching_dirs ["home", "u"]
      (.mk "u" true
        [ .mk "a1" true [], .mk "a2" true [], .mk "a3" true [],
          .mk "a4" true [], .mk "a5" true [], .mk "a6" true [] ])
      "a").length = 5 ∧
    find_matching_dirs ["home", "u"]
      (.mk "u" true
        [ .mk "a1" true [], .mk "a2" true [], .mk "a3" true [],
          .mk "a4" true [], .mk "a5" true [], .mk "a6" true [] ]) "a" =
      (allMatches (lowerStr "a") (pyWalk ["home", "u"]
        (.mk "u" true
          [ .mk "a1" true [], .mk "a2" true [], .mk "a3" true [],
            .mk "a4" true [], .mk "a5" true [], .mk "a6" true [] ]))).take 5 ∧
    walkLoop (lowerStr "a") 5
        ([(["p"], ["a1", "a2", "a3", "a4", "a5"])] ++ [(["q"], ["a9"])]) [] =
      walkLoop (lowerStr "a") 5 [(["p"], ["a1", "a2", "a3", "a4", "a5"])] [] ∧
    scanNames (lowerStr "a") 5 ["p"]
        (["a1", "a2", "a3", "a4", "a5"] ++ ["a6"]) [] =
      scanNames (lowerStr "a") 5 ["p"] ["a1", "a2", "a3", "a4", "a5"] [] :=
  claim_C3_early_termination ["home", "u"] _ "a"
    [(["p"], ["a1", "a2", "a3", "a4", "a5"])] [(["q"], ["a9"])]
    ["p"] ["a1", "a2", "a3", "a4", "a5"] ["a6"] []
    (by decide) (by decide) (by decide) (by decide)

/-- Claim C6: on selection, the launched command string is the
configured `docker_command` template with every occurrence of the
literal token `$WORKSPACE_BASE` replaced by the resolved workspace
path; concretely, the template of the spec scenario with workspace
`/home/u/projects/app1` yields exactly the expected command. -/
theorem claim_C6_workspace_substitution (home : PyPath) (tpl : String)
    (dirs : List (List String)) (mf : Bool) (s : String) :
    (itemEnterOnEvent ⟨home, tpl, dirs, mf⟩ ⟨"use", s⟩).launched =
      some (pyReplace tpl "$WORKSPACE_BASE" (PyPath.parse s).str) ∧
    (itemEnterOnEvent ⟨PyPath.parse "/home/u",
        "docker run -v $WORKSPACE_BASE:/ws image", [], false⟩
      ⟨"use", "/home/u/projects/app1"⟩).launched =
      some "docker run -v /home/u/projects/app1:/ws image" := by
  constructor
  · simp [itemEnterOnEvent]
  · rfl

/-- Claim C7: for an `action == "create"` payload the path is resolved
against home and created with all missing parents (`exist_ok=True`
makes an already-existing target a success — the first two conjuncts
hold for every prior directory set, in particular one already
containing the target); on an OS-level `mkdir` error the launch step
is skipped and no exception escapes (the listener still returns). -/
theorem claim_C7_create_action (home : PyPath) (tpl : String)
    (dirs : List (List String)) (s : String) :
    ((itemEnterOnEvent ⟨home, tpl, dirs, false⟩ ⟨"create", s⟩).launched =
      some (pyReplace tpl "$WORKSPACE_BASE"
        (pyJoin home (PyPath.parse s)).str)) ∧
    (∀ k, k ≤ (pyJoin home (PyPath.parse s)).parts.length →
      (pyJoin home (PyPath.parse s)).parts.take k ∈
        (itemEnterOnEvent ⟨home, tpl, dirs, false⟩ ⟨"create", s⟩).dirs) ∧
    (itemEnterOnEvent ⟨home, tpl, dirs, true⟩ ⟨"create", s⟩).launched =
      none ∧
    (itemEnterOnEvent ⟨home, tpl, dirs, true⟩ ⟨"create", s⟩).dirs = dirs := by
  refine ⟨?_, ?_, ?_, ?_⟩
  · simp [itemEnterOnEvent]
  · intro k hk
    simp only [itemEnterOnEvent, if_pos rfl]
    simpa using mkdirParents_mem dirs (pyJoin home (PyPath.parse s)).parts k hk
  · simp [itemEnterOnEvent]
  · simp [itemEnterOnEvent]

/-- Witness for C7 at the spec scenario `path="newproj"`, home
`/home/u`. -/
theorem claim_C7_witness :
    ((itemEnterOnEvent ⟨PyPath.parse "/home/u", "run $WORKSPACE_BASE",
        [["home"], ["home", "u"]], false⟩
      ⟨"create", "newproj"⟩).launched =
      some (pyReplace "run $WORKSPACE_BASE" "$WORKSPACE_BASE"
        (pyJoin (PyPath.parse "/home/u") (PyPath.parse "newproj")).str)) ∧
    (∀ k, k ≤ (pyJoin (PyPath.parse "/home/u")
        (PyPath.parse "newproj")).parts.length →
      (pyJoin (PyPath.parse "/home/u") (PyPath.parse "newproj")).parts.take k ∈
        (itemEnterOnEvent ⟨PyPath.parse "/home/u", "run $WORKSPACE_BASE",
          [["home"], ["home", "u"]], false⟩ ⟨"create", "newproj"⟩).dirs) ∧
    (itemEnterOnEvent ⟨PyPath.parse "/home/u", "run $WORKSPACE_BASE",
        [["home"], ["home", "u"]], true⟩ ⟨"create", "newproj"⟩).launched =
      none ∧
    (itemEnterOnEvent ⟨PyPath.parse "/home/u", "run $WORKSPACE_BASE",
        [["home"], ["home", "u"]], true⟩ ⟨"create", "newproj"⟩).dirs =
      [["home"], ["home", "u"]] :=
  claim_C7_create_action (PyPath.parse "/home/u") "run $WORKSPACE_BASE"
    [["home"], ["home", "u"]] "newproj"

/-- Claim C8: for a non-empty query the keyword listener returns the
synthetic create item, carrying payload `{action: "create", path:
query}`, followed by one `{action: "use", path: <match>}` item per
matched directory in match order — and there are at most 5 matched
items. -/
theorem claim_C8_keyword_results (homePath : FPath) (home : FSDir)
    (q : String) (hq : q ≠ "") :
    keywordOnEvent homePath home (some q) =
      { name := "Create and use: " ++ q
        description := "Create this directory and use it as workspace"
        onEnter := .custom { action := "create", path := q } }
      :: (find_matching_dirs homePath home q).map (fun p =>
        { name := pathToString p
          description := "Use this directory as workspace"
          onEnter := .custom { action := "use", path := pathToString p } }) ∧
    (find_matching_dirs homePath home q).length ≤ 5 := by
  constructor
  · rw [keywordOnEvent]
    simp only [Option.getD_some]
    rw [if_neg hq]
  · exact find_matching_dirs_len_le _ _ _

/-- Witness for C8 on a one-directory home tree. -/
theorem claim_C8_witness :
    keywordOnEvent ["home", "u"] (.mk "u" true [.mk "proj" true []])
        (some "pr") =
      { name := "Create and use: " ++ "pr"
        description := "Create this directory and use it as workspace"
        onEnter := .custom { action := "create", path := "pr" } }
      :: (find_matching_dirs ["home", "u"]
          (.mk "u" true [.mk "proj" true []]) "pr").map (fun p =>
        { name := pathToString p
          description := "Use this directory as workspace"
          onEnter := .custom { action := "use", path := pathToString p } }) ∧
    (find_matching_dirs ["home", "u"]
      (.mk "u" true [.mk "proj" true []]) "pr").length ≤ 5 :=
  claim_C8_keyword_results ["home", "u"] _ "pr" (by decide)

/-- Claim C10: joining an absolute payload path under home leaves it
unchanged (`Path.home() / p == p` for absolute `p`), so the create
action makes the directory — and substitutes it into the launched
command — at that absolute location, which need not lie under home. -/
theorem claim_C10_absolute_path_escape (home : PyPath) (tpl : String)
    (dirs : List (List String)) (s : String)
    (habs : (PyPath.parse s).absolute = true) :
    pyJoin home (PyPath.parse s) = PyPath.parse s ∧
    (itemEnterOnEvent ⟨home, tpl, dirs, false⟩ ⟨"create", s⟩).launched =
      some (pyReplace tpl "$WORKSPACE_BASE" (PyPath.parse s).str) ∧
    (PyPath.parse s).parts ∈
      (itemEnterOnEvent ⟨home, tpl, dirs, false⟩ ⟨"create", s⟩).dirs := by
  have hj : pyJoin home (PyPath.parse s) = PyPath.parse s := by
    rw [pyJoin, if_pos habs]
  refine ⟨hj, ?_, ?_⟩
  · simp [itemEnterOnEvent, hj]
  · have hm := mkdirParents_mem dirs (PyPath.parse s).parts
      (PyPath.parse s).parts.length (le_refl _)
    rw [List.take_length] at hm
    simp only [itemEnterOnEvent, if_pos rfl, hj]
    simpa using hm

/-- Witness for C10: creating `/opt/data` with home `/home/u` writes
outside the home subtree (the home components are not a prefix of the
created path's). -/
theorem claim_C10_witness :
    (["home", "u"].isPrefixOf ["opt", "data"] = false) ∧
    (pyJoin (PyPath.parse "/home/u") (PyPath.parse "/opt/data") =
        PyPath.parse "/opt/data" ∧
      (itemEnterOnEvent ⟨PyPath.parse "/home/u", "run $WORKSPACE_BASE:/ws",
          [["home"], ["home", "u"]], false⟩
        ⟨"create", "/opt/data"⟩).launched =
        some (pyReplace "run $WORKSPACE_BASE:/ws" "$WORKSPACE_BASE"
          (PyPath.parse "/opt/data").str) ∧
      (PyPath.parse "/opt/data").parts ∈
        (itemEnterOnEvent ⟨PyPath.parse "/home/u", "run $WORKSPACE_BASE:/ws",
          [["home"], ["home", "u"]], false⟩ ⟨"create", "/opt/data"⟩).dirs) :=
  ⟨by decide,
    claim_C10_absolute_path_escape (PyPath.parse "/home/u")
      "run $WORKSPACE_BASE:/ws" [["home"], ["home", "u"]] "/opt/data"
      (by decide)⟩
